import Mathlib

/-!
Shallow embedding of `convhull_3d_build` from
`src/hrtf_builder/src/convexhull_3d/convhull_3d.h` (3-D quickhull).

Modelling conventions:
* `CH_FLOAT` (double) is modelled by `ℚ` (exact arithmetic); every branch the
  C code takes depends only on comparisons, which `ℚ` represents exactly.
* `sqrt` (used only to normalise plane coefficients in `plane_3d`) is not
  rational-valued, so the whole development is parametrised by a function
  `sq : ℚ → ℚ` standing for `sqrt`.  Any property of `sqrt` a theorem needs
  (such as mapping nonnegatives to nonnegatives) is an explicit hypothesis.
  Division by zero in `ℚ` yields 0, which makes a degenerate plane (zero
  normal before normalisation) get coefficients `(0,0,0),0`, hence score 0
  for every point - the same branch (`score > 0` false) as the C code's
  NaN coefficients.
* `rand()` is modelled by a stream `rnd : ℕ → ℚ`, consumed in the order the
  C code calls `rand()` (coordinate-major), with `RAND_MAX` the common value
  2147483647.
* Out-of-bounds array reads (possible in the C code, e.g. `points[p]` for a
  point index past `nVert`) are modelled by `List.getD` with the default
  point `(0,0,0,1)`; no theorem below depends on the value chosen.
* The `while(detA==0.0)` retriangulation loop increments `index` without a
  bound; in the model `find_ref` returns `none` when the candidate list
  `pp` is exhausted (the point where the C code reads `pp[index]` out of
  bounds - undefined behaviour), and the run records this in the
  `exhausted` flag and stops.
-/

namespace Convhull

attribute [local semireducible] Rat.add Rat.mul Rat.sub Rat.inv

set_option maxRecDepth 100000

/-- A 3-D input vertex (`ch_vertex`). -/
structure Vec3 where
  x : ℚ
  y : ℚ
  z : ℚ
deriving DecidableEq, Repr

/-- A preprocessed point: 3 coordinates plus the homogeneous fourth
coordinate (`points[i*(d+1)+d] = 1.0`). -/
structure Vec4 where
  x : ℚ
  y : ℚ
  z : ℚ
  w : ℚ
deriving DecidableEq, Repr

/-- A face: ordered triple of point indices (one row of `faces`). -/
structure Face where
  a : ℕ
  b : ℕ
  c : ℕ
deriving DecidableEq, Repr

/-- One face row together with its cached plane equation: the row `k` of
`faces`, `cf` and `df` in the C code. -/
structure FaceRow where
  f : Face
  c : Vec3
  d : ℚ
deriving DecidableEq, Repr

/-- `CH_NOISE_VAL` for double precision: `0.0000001`. -/
def CH_NOISE_VAL : ℚ := 1 / 10000000

/-- The usual value of `RAND_MAX` (2^31 - 1). -/
def RAND_MAX : ℚ := 2147483647

/-- `CH_MAX_NUM_FACES`: the fixed face-count safety ceiling. -/
def CH_MAX_NUM_FACES : ℕ := 50000

/-- `det_4x4`: determinant of a 4x4 matrix given row-major as
`m[0..15]`; literal transcription of the C formula, with row `i` of the
matrix `A` being `ri`. -/
def det_4x4 (r0 r1 r2 r3 : Vec4) : ℚ :=
  r0.w * r1.z * r2.y * r3.x - r0.z * r1.w * r2.y * r3.x -
  r0.w * r1.y * r2.z * r3.x + r0.y * r1.w * r2.z * r3.x +
  r0.z * r1.y * r2.w * r3.x - r0.y * r1.z * r2.w * r3.x -
  r0.w * r1.z * r2.x * r3.y + r0.z * r1.w * r2.x * r3.y +
  r0.w * r1.x * r2.z * r3.y - r0.x * r1.w * r2.z * r3.y -
  r0.z * r1.x * r2.w * r3.y + r0.x * r1.z * r2.w * r3.y +
  r0.w * r1.y * r2.x * r3.z - r0.y * r1.w * r2.x * r3.z -
  r0.w * r1.x * r2.y * r3.z + r0.x * r1.w * r2.y * r3.z +
  r0.y * r1.x * r2.w * r3.z - r0.x * r1.y * r2.w * r3.z -
  r0.z * r1.y * r2.x * r3.w + r0.y * r1.z * r2.x * r3.w +
  r0.z * r1.x * r2.y * r3.w - r0.x * r1.z * r2.y * r3.w -
  r0.y * r1.x * r2.z * r3.w + r0.x * r1.y * r2.z * r3.w

/-- The unnormalised plane normal computed by the cofactor loop in
`plane_3d`: `pdiff[0] = p2 - p1`, `pdiff[1] = p3 - p2`, and `c[i]` is the
signed 2x2 minor with column `i` removed. -/
def plane_cross (p1 p2 p3 : Vec3) : Vec3 :=
  ⟨(p2.y - p1.y) * (p3.z - p2.z) - (p3.y - p2.y) * (p2.z - p1.z),
   -((p2.x - p1.x) * (p3.z - p2.z) - (p3.x - p2.x) * (p2.z - p1.z)),
   (p2.x - p1.x) * (p3.y - p2.y) - (p3.x - p2.x) * (p2.y - p1.y)⟩

/-- `plane_3d`: plane coefficients through three points; the normal is
divided by `sq` of its squared length (`sq` models `sqrt`), and the offset
`d` is `-p1 . c` with the normalised `c`. -/
def plane_3d (sq : ℚ → ℚ) (p1 p2 p3 : Vec3) : Vec3 × ℚ :=
  let c0 := plane_cross p1 p2 p3
  let norm_c := sq (c0.x ^ 2 + c0.y ^ 2 + c0.z ^ 2)
  let c : Vec3 := ⟨c0.x / norm_c, c0.y / norm_c, c0.z / norm_c⟩
  (c, -(p1.x * c.x) - p1.y * c.y - p1.z * c.z)

/-- Fetch point `i` (out-of-bounds reads, undefined in C, give `(0,0,0,1)`). -/
def getPt (points : List Vec4) (i : ℕ) : Vec4 :=
  points.getD i ⟨0, 0, 0, 1⟩

/-- First three coordinates of a point (the `p_s` / `points_s` extraction). -/
def vec3_of (p : Vec4) : Vec3 := ⟨p.x, p.y, p.z⟩

/-- Pseudorandom noise added to one coordinate:
`CH_NOISE_VAL*rand()/RAND_MAX`. -/
def noise (rnd : ℕ → ℚ) (k : ℕ) : ℚ :=
  CH_NOISE_VAL * rnd k / RAND_MAX

/-- Perturb one input vertex (vertex index `i`, `rand()` consumed in
coordinate order) and append the homogeneous coordinate 1. -/
def perturb_vertex (rnd : ℕ → ℚ) (i : ℕ) (v : Vec3) : Vec4 :=
  ⟨v.x + noise rnd (3 * i), v.y + noise rnd (3 * i + 1),
   v.z + noise rnd (3 * i + 2), 1⟩

/-- The preprocessing loop building `points` from `in_vertices`. -/
def mk_points (rnd : ℕ → ℚ) (verts : List Vec3) : List Vec4 :=
  (List.range verts.length).map fun i =>
    perturb_vertex rnd i (verts.getD i ⟨0, 0, 0⟩)

/-- Per-axis `span`: `max_p - min_p` where the fold starts from the
sentinel values `2.23e-13` and `2.23e+13` exactly as in the source. -/
def span_axis (verts : List Vec3) (sel : Vec3 → ℚ) : ℚ :=
  (verts.foldl (fun m v => max m (sel v)) (223 / 1000000000000000)) -
  (verts.foldl (fun m v => min m (sel v)) 22300000000000)

/-- The three per-axis spans as a vector. -/
def span_of (verts : List Vec3) : Vec3 :=
  ⟨span_axis verts (·.x), span_axis verts (·.y), span_axis verts (·.z)⟩

/-- Number of points left over after the initial simplex
(`nVert - d - 1` clamped at 0; for `nVert = 3` the C value is negative and
the code's behaviour is undefined). -/
def nrem (n : ℕ) : ℕ := n - 4

/-- `meanp`: centroid of the perturbed points of index `d+1 .. nVert-1`,
divided by the signed count `nVert - d - 1`. -/
def meanp (points : List Vec4) (n : ℕ) : Vec3 :=
  let s := (List.range (nrem n)).foldl
    (fun (acc : Vec3) k =>
      let p := getPt points (k + 4)
      ⟨acc.x + p.x, acc.y + p.y, acc.z + p.z⟩) ⟨0, 0, 0⟩
  ⟨s.x / ((n : ℚ) - 4), s.y / ((n : ℚ) - 4), s.z / ((n : ℚ) - 4)⟩

/-- `reldist` of the point with (absolute) index `i`: the squared
span-normalised distance from `meanp`. -/
def reldist (points : List Vec4) (sp mp : Vec3) (i : ℕ) : ℚ :=
  let p := vec3_of (getPt points i)
  ((p.x - mp.x) / sp.x) ^ 2 + ((p.y - mp.y) / sp.y) ^ 2 +
    ((p.z - mp.z) / sp.z) ^ 2

/-- The `(reldist, index)` pairs fed to `sort_float` (index is the
0-based position `k`, the point is `k + d + 1`). -/
def reldist_pairs (points : List Vec4) (sp mp : Vec3) (n : ℕ) :
    List (ℚ × ℕ) :=
  (List.range (nrem n)).map fun k => (reldist points sp mp (k + 4), k)

/-- Model of `sort_float(..., descendFLAG=1)` on value/index pairs.  The C
code uses `qsort`, which returns some permutation sorted by descending
value; `insertionSort` with the relation `b.1 ≤ a.1` is one such
permutation. -/
def sort_pairs_desc (l : List (ℚ × ℕ)) : List (ℚ × ℕ) :=
  List.insertionSort (fun a b : ℚ × ℕ => b.1 ≤ a.1) l

/-- The sorted pending pairs for a given input. -/
def sorted_reldist_pairs (rnd : ℕ → ℚ) (verts : List Vec3) :
    List (ℚ × ℕ) :=
  let points := mk_points rnd verts
  sort_pairs_desc
    (reldist_pairs points (span_of verts) (meanp points verts.length)
      verts.length)

/-- Initial `pleft`: sorted indices, shifted by `d + 1`. -/
def init_pleft (rnd : ℕ → ℚ) (verts : List Vec3) : List ℕ :=
  (sorted_reldist_pairs rnd verts).map fun pr => pr.2 + 4

/-- Face `i` of the initial simplex: the entries of `aVec = [0,1,2,3]`
different from `i`, in order. -/
def simplex_face (i : ℕ) : Face :=
  match (List.range 4).filter (fun j => j ≠ i) with
  | [a, b, c] => ⟨a, b, c⟩
  | _ => ⟨0, 0, 0⟩

/-- Vertex list of a face row. -/
def face_list (f : Face) : List ℕ := [f.a, f.b, f.c]

/-- Model of `sort_int(..., ascending)`. -/
def sort_int (l : List ℕ) : List ℕ := List.insertionSort (· ≤ ·) l

/-- Build one face row: plane coefficients from `plane_3d` applied to the
face's three points. -/
def mk_row (sq : ℚ → ℚ) (points : List Vec4) (f : Face) : FaceRow :=
  let pl := plane_3d sq (vec3_of (getPt points f.a))
    (vec3_of (getPt points f.b)) (vec3_of (getPt points f.c))
  ⟨f, pl.1, pl.2⟩

/-- Reverse the order of the last two vertices and negate the plane
equation (the misorientation fix). -/
def flip_row (r : FaceRow) : FaceRow :=
  ⟨⟨r.f.a, r.f.c, r.f.b⟩, ⟨-r.c.x, -r.c.y, -r.c.z⟩, -r.d⟩

/-- The orientation determinant: rows of `A` are the three face points
followed by the reference point `p` (all homogeneous 4-vectors). -/
def det_face_pt (points : List Vec4) (f : Face) (p : ℕ) : ℚ :=
  det_4x4 (getPt points f.a) (getPt points f.b) (getPt points f.c)
    (getPt points p)

/-- Simplex-initialisation orientation pass for one face `k` (the
excluded point is point `k`): flip when `v = det(A) < 0`. -/
def orient_init (points : List Vec4) (r : FaceRow) (k : ℕ) : FaceRow :=
  if det_face_pt points r.f k < 0 then flip_row r else r

/-- The four oriented rows of the initial simplex. -/
def init_rows (sq : ℚ → ℚ) (points : List Vec4) : List FaceRow :=
  (List.range 4).map fun k =>
    orient_init points (mk_row sq points (simplex_face k)) k

/-- `points_cf[j] + df[j]`: the visibility score of face row `r` at
point `p`. -/
def face_score (r : FaceRow) (p : Vec4) : ℚ :=
  p.x * r.c.x + p.y * r.c.y + p.z * r.c.z + r.d

/-- Visibility test of the classifier: `score > 0`. -/
def visible_row (r : FaceRow) (p : Vec4) : Bool :=
  decide (0 < face_score r p)

/-- Number of vertices a candidate (not-visible) face `g` shares with the
visible face's sorted vertex list `fs` (`f0_sum` computed via
`ismember`). -/
def shared_count (g : Face) (fs : List ℕ) : ℕ :=
  ((face_list g).filter (fun x => decide (x ∈ fs))).length

/-- The marked vertices of `g` (slots of `gVec` with `f0` set), which form
the horizon edge when there are exactly `d - 1 = 2` of them. -/
def shared_pair (g : Face) (fs : List ℕ) : ℕ × ℕ :=
  match (face_list g).filter (fun x => decide (x ∈ fs)) with
  | [x, y] => (x, y)
  | _ => (0, 0)

/-- Horizon construction: for each visible face (in row order), every
not-visible face (in row order) sharing exactly 2 vertices contributes
the edge of the 2 shared vertices. -/
def compute_horizon (vis nonvis : List Face) : List (ℕ × ℕ) :=
  vis.flatMap fun v =>
    (nonvis.filter fun g =>
        decide (shared_count g (sort_int (face_list v)) = 2)).map
      fun g => shared_pair g (sort_int (face_list v))

/-- Append one new face per horizon edge (edge vertices plus the new
point `i`), computing each plane as it goes; abort with the `fucked` flag
(the C code's name) as soon as the face count exceeds
`CH_MAX_NUM_FACES`. -/
def add_new_faces (sq : ℚ → ℚ) (points : List Vec4) (i : ℕ) :
    List (ℕ × ℕ) → List FaceRow → List FaceRow × Bool
  | [], rows => (rows, false)
  | e :: rest, rows =>
    if CH_MAX_NUM_FACES <
        (rows ++ [mk_row sq points ⟨e.1, e.2, i⟩]).length then
      (rows ++ [mk_row sq points ⟨e.1, e.2, i⟩], true)
    else add_new_faces sq points i rest
      (rows ++ [mk_row sq points ⟨e.1, e.2, i⟩])

/-- The `while(detA == 0.0)` search: scan the candidate list `pp` in
order, skipping candidates whose determinant is zero; `none` when the
list is exhausted (where the C code reads `pp[index]` out of bounds). -/
def find_ref (points : List Vec4) (f : Face) : List ℕ → Option (ℕ × ℚ)
  | [] => none
  | c :: rest =>
    let v := det_face_pt points f c
    if v = 0 then find_ref points f rest else some (c, v)

/-- The candidate list `pp`: members of `hVec = [0 .. nFaces-1]` that are
not vertices of the face (`ismember(hVec, face_s, ...)`). -/
def pp_of (nF : ℕ) (f : Face) : List ℕ :=
  (List.range nF).filter fun j => decide (j ∉ sort_int (face_list f))

/-- Orientation fix of one new face row: find the first reference point
with nonzero determinant, flip if it is negative; `none` when the
candidate list is exhausted. -/
def fix_row (points : List Vec4) (nF : ℕ) (r : FaceRow) :
    Option FaceRow :=
  match find_ref points r.f (pp_of nF r.f) with
  | none => none
  | some (_, v) => some (if v < 0 then flip_row r else r)

/-- Fix all new rows in order (each fix only reads its own row, `points`
and `nF`, so they are independent). -/
def fix_new_rows (points : List Vec4) (nF : ℕ) :
    List FaceRow → Option (List FaceRow)
  | [] => some []
  | r :: rest =>
    match fix_row points nF r with
    | none => none
    | some r' =>
      match fix_new_rows points nF rest with
      | none => none
      | some rs => some (r' :: rs)

/-- Mutable state of the main quickhull loop. -/
structure St where
  rows : List FaceRow
  pleft : List ℕ
  cnt : ℕ
  fucked : Bool
  exhausted : Bool
deriving DecidableEq, Repr

/-- One iteration of the main loop: pop the front pending point, classify
faces, and if any face is visible run horizon tracing and
retriangulation. -/
def iteration (sq : ℚ → ℚ) (points : List Vec4) (st : St) : St :=
  match st.pleft with
  | [] => st
  | i :: rest =>
    let p := getPt points i
    let visRows := st.rows.filter fun r => visible_row r p
    if visRows.length = 0 then
      { st with pleft := rest, cnt := st.cnt + 1 }
    else
      let nonvisRows := st.rows.filter fun r => ! visible_row r p
      let horizon := compute_horizon (visRows.map (·.f))
        (nonvisRows.map (·.f))
      let res := add_new_faces sq points i horizon nonvisRows
      if res.2 then
        { rows := res.1, pleft := rest, cnt := st.cnt + 1,
          fucked := true, exhausted := st.exhausted }
      else
        match fix_new_rows points res.1.length
            (res.1.drop nonvisRows.length) with
        | none =>
          { rows := res.1, pleft := rest, cnt := st.cnt + 1,
            fucked := false, exhausted := true }
        | some fixed =>
          { rows := nonvisRows ++ fixed, pleft := rest,
            cnt := st.cnt + 1, fucked := false,
            exhausted := st.exhausted }

/-- The main loop, driven by fuel (each iteration consumes exactly one
pending point, so `pleft.length` fuel suffices); stops when the queue is
empty, the face limit was hit, or the candidate search overran. -/
def runLoop (sq : ℚ → ℚ) (points : List Vec4) : ℕ → St → St
  | 0, st => st
  | fuel + 1, st =>
    if st.pleft.isEmpty || st.fucked || st.exhausted then st
    else runLoop sq points fuel (iteration sq points st)

/-- State after simplex initialisation and queue setup. -/
def init_state (sq : ℚ → ℚ) (rnd : ℕ → ℚ) (verts : List Vec3) : St :=
  { rows := init_rows sq (mk_points rnd verts),
    pleft := init_pleft rnd verts,
    cnt := 0, fucked := false, exhausted := false }

/-- State after the whole main loop. -/
def build_state (sq : ℚ → ℚ) (rnd : ℕ → ℚ) (verts : List Vec3) : St :=
  let st0 := init_state sq rnd verts
  runLoop sq (mk_points rnd verts) st0.pleft.length st0

/-- The output pair `(*out_faces, *nOut_faces)`: `⟨none, 0⟩` models
`(*out_faces) = NULL; (*nOut_faces) = 0`. -/
structure BuildOut where
  out_faces : Option (List Face)
  nOut_faces : ℕ
deriving DecidableEq, Repr

/-- Read the output from the final state: `NULL` when `FUCKED`; the outer
`none` marks a run that reached the out-of-bounds candidate read
(undefined behaviour in C, so the model assigns it no output). -/
def build_output (st : St) : Option BuildOut :=
  if st.exhausted then none
  else if st.fucked then some ⟨none, 0⟩
  else some ⟨some (st.rows.map (·.f)), st.rows.length⟩

/-- `convhull_3d_build`: the guard is `nVert < 3` (not 4), then the full
pipeline. -/
def convhull_3d_build (sq : ℚ → ℚ) (rnd : ℕ → ℚ) (verts : List Vec3) :
    Option BuildOut :=
  if verts.length < 3 then some ⟨none, 0⟩
  else build_output (build_state sq rnd verts)

/-- Identity model of `sqrt` used for concrete evaluations (only the sign
of the scores matters, and any nonnegativity-preserving model gives the
same signs). -/
def sqId : ℚ → ℚ := fun x => x

/-- The all-zeroes random stream (no perturbation). -/
def rnd0 : ℕ → ℚ := fun _ => 0

/-- The random stream that always returns `RAND_MAX` (a legal value of
`rand()`). -/
def rndFull : ℕ → ℚ := fun _ => RAND_MAX

/-- A non-degenerate tetrahedron input. -/
def tetra4 : List Vec3 := [⟨0, 0, 0⟩, ⟨1, 0, 0⟩, ⟨0, 1, 0⟩, ⟨0, 0, 1⟩]

/-- Four exactly coplanar input points (unit square in the `z = 0`
plane). -/
def coplanar4 : List Vec3 := [⟨0, 0, 0⟩, ⟨1, 0, 0⟩, ⟨0, 1, 0⟩, ⟨1, 1, 0⟩]

/-- Four coincident input points. -/
def coincident4 : List Vec3 := [⟨0, 0, 0⟩, ⟨0, 0, 0⟩, ⟨0, 0, 0⟩, ⟨0, 0, 0⟩]

/-- The tetrahedron as homogeneous points (what `mk_points rnd0 tetra4`
produces). -/
def tetra_hom : List Vec4 :=
  [⟨0, 0, 0, 1⟩, ⟨1, 0, 0, 1⟩, ⟨0, 1, 0, 1⟩, ⟨0, 0, 1, 1⟩]

/-- An input on which the retriangulation orientation-fix search runs out
of candidate reference points: points 0-3 lie in the plane `z = 0` with
points 0,1,2 collinear, point 4 sits above the plane and point 5 in the
plane; when point 5 is inserted, the new face `(1,2,5)` lies in `z = 0`
and both of its candidate reference points (0 and 3) are coplanar with
it. -/
def ptsC9 : List Vec3 :=
  [⟨0, 0, 0⟩, ⟨1, 0, 0⟩, ⟨2, 0, 0⟩, ⟨0, 1, 0⟩, ⟨0, 0, 2⟩, ⟨0, -1, 0⟩,
   ⟨1/2, 0, 1/2⟩]

/-!  Spec-side definitions, used only to state properties in the spec's
own vocabulary and compare them with what the code computes. -/

/-- Modelled from the spec: "that axis's observed value range (computed
as max − min over all points on that axis)".  Note this differs from the
code's `span_axis`, whose fold starts from sentinel constants. -/
def axis_range_spec (verts : List Vec3) (sel : Vec3 → ℚ) : ℚ :=
  match verts.map sel with
  | [] => 0
  | v :: vs => vs.foldl max v - vs.foldl min v

/-- Modelled from the spec: a visible and a not-visible face are horizon
neighbours when they share exactly `d - 1 = 2` of their vertices (as a
set of vertex indices). -/
def spec_shares_two (g v : Face) : Prop :=
  ((face_list g).toFinset ∩ (face_list v).toFinset).card = 2

instance (g v : Face) : Decidable (spec_shares_two g v) := by
  unfold spec_shares_two
  infer_instance

/-- Modelled from the spec: the horizon is the collection, over visible
faces `v` and not-visible faces `g` sharing exactly two vertices, of the
edge formed by the two shared vertex indices. -/
def spec_horizon (vis nonvis : List Face) : List (ℕ × ℕ) :=
  vis.flatMap fun v =>
    (nonvis.filter fun g => decide (spec_shares_two g v)).map
      fun g => shared_pair g (sort_int (face_list v))

/-!  Helper lemmas. -/

/-- Homogeneous 4x4 determinant as the signed plane evaluation: with unit
fourth coordinates, `det_4x4` of the three face points and a reference
point is the negation of `c0 . p + d0` for the unnormalised plane
`(c0, d0)` through the face. -/
theorem det_4x4_homog (a1 a2 a3 b1 b2 b3 c1 c2 c3 q1 q2 q3 : ℚ) :
    det_4x4 ⟨a1, a2, a3, 1⟩ ⟨b1, b2, b3, 1⟩ ⟨c1, c2, c3, 1⟩
      ⟨q1, q2, q3, 1⟩ =
    -((plane_cross ⟨a1, a2, a3⟩ ⟨b1, b2, b3⟩ ⟨c1, c2, c3⟩).x * q1 +
      (plane_cross ⟨a1, a2, a3⟩ ⟨b1, b2, b3⟩ ⟨c1, c2, c3⟩).y * q2 +
      (plane_cross ⟨a1, a2, a3⟩ ⟨b1, b2, b3⟩ ⟨c1, c2, c3⟩).z * q3 -
      ((plane_cross ⟨a1, a2, a3⟩ ⟨b1, b2, b3⟩ ⟨c1, c2, c3⟩).x * a1 +
       (plane_cross ⟨a1, a2, a3⟩ ⟨b1, b2, b3⟩ ⟨c1, c2, c3⟩).y * a2 +
       (plane_cross ⟨a1, a2, a3⟩ ⟨b1, b2, b3⟩ ⟨c1, c2, c3⟩).z * a3)) := by
  simp only [det_4x4, plane_cross]
  ring

/-- The unnormalised plane normal of a face over the point list. -/
def c0_of (points : List Vec4) (f : Face) : Vec3 :=
  plane_cross (vec3_of (getPt points f.a)) (vec3_of (getPt points f.b))
    (vec3_of (getPt points f.c))

/-- The unnormalised plane evaluation `c0 . p + d0` of point `p` against
face `f`. -/
def t_of (points : List Vec4) (f : Face) (p : Vec4) : ℚ :=
  (c0_of points f).x * p.x + (c0_of points f).y * p.y +
    (c0_of points f).z * p.z -
    ((c0_of points f).x * (getPt points f.a).x +
     (c0_of points f).y * (getPt points f.a).y +
     (c0_of points f).z * (getPt points f.a).z)

/-- The normalisation factor `sq(|c0|^2)` of a face's plane. -/
def s_of (sq : ℚ → ℚ) (points : List Vec4) (f : Face) : ℚ :=
  sq ((c0_of points f).x ^ 2 + (c0_of points f).y ^ 2 +
      (c0_of points f).z ^ 2)

/-- Score formula at the level of `plane_3d` over abstract arguments. -/
theorem plane_3d_score (sq : ℚ → ℚ) (q1 q2 q3 : Vec3) (px py pz : ℚ) :
    px * (plane_3d sq q1 q2 q3).1.x + py * (plane_3d sq q1 q2 q3).1.y +
      pz * (plane_3d sq q1 q2 q3).1.z + (plane_3d sq q1 q2 q3).2 =
    ((plane_cross q1 q2 q3).x * px + (plane_cross q1 q2 q3).y * py +
      (plane_cross q1 q2 q3).z * pz -
      ((plane_cross q1 q2 q3).x * q1.x + (plane_cross q1 q2 q3).y * q1.y +
       (plane_cross q1 q2 q3).z * q1.z)) /
    sq ((plane_cross q1 q2 q3).x ^ 2 + (plane_cross q1 q2 q3).y ^ 2 +
        (plane_cross q1 q2 q3).z ^ 2) := by
  simp only [plane_3d]
  set c0 := plane_cross q1 q2 q3 with hc0
  set s := sq (c0.x ^ 2 + c0.y ^ 2 + c0.z ^ 2) with hs
  by_cases h0 : s = 0
  · rw [h0]
    simp
  · field_simp
    ring

/-- The visibility score of a freshly built row is the unnormalised plane
evaluation divided by the normalisation factor. -/
theorem face_score_mk_row (sq : ℚ → ℚ) (points : List Vec4) (f : Face)
    (p : Vec4) :
    face_score (mk_row sq points f) p =
      t_of points f p / s_of sq points f := by
  have h := plane_3d_score sq (vec3_of (getPt points f.a))
    (vec3_of (getPt points f.b)) (vec3_of (getPt points f.c)) p.x p.y p.z
  simp only [face_score, mk_row]
  rw [h]
  simp only [t_of, s_of, c0_of, vec3_of]

/-- Flipping a row negates its score at any point. -/
theorem face_score_flip (r : FaceRow) (p : Vec4) :
    face_score (flip_row r) p = -face_score r p := by
  simp only [face_score, flip_row]
  ring

/-- Every point produced by the preprocessing has homogeneous coordinate
1, and so does the out-of-bounds default. -/
theorem getPt_mk_points_w (rnd : ℕ → ℚ) (verts : List Vec3) (i : ℕ) :
    (getPt (mk_points rnd verts) i).w = 1 := by
  unfold getPt
  rcases h : (mk_points rnd verts)[i]? with _ | p
  · simp [List.getD, h]
  · have hp : p ∈ mk_points rnd verts := by
      exact List.getElem?_mem h
    simp only [mk_points, List.mem_map] at hp
    obtain ⟨j, _, rfl⟩ := hp
    simp [List.getD, h, perturb_vertex]

/-- With unit homogeneous coordinates, the orientation determinant is the
negated unnormalised plane evaluation of the reference point. -/
theorem det_face_pt_eq_neg_t (points : List Vec4)
    (hw : ∀ i, (getPt points i).w = 1) (f : Face) (k : ℕ) :
    det_face_pt points f k = -t_of points f (getPt points k) := by
  have ha : getPt points f.a = ⟨(getPt points f.a).x,
      (getPt points f.a).y, (getPt points f.a).z, 1⟩ := by
    rw [← hw f.a]
  have hb : getPt points f.b = ⟨(getPt points f.b).x,
      (getPt points f.b).y, (getPt points f.b).z, 1⟩ := by
    rw [← hw f.b]
  have hc : getPt points f.c = ⟨(getPt points f.c).x,
      (getPt points f.c).y, (getPt points f.c).z, 1⟩ := by
    rw [← hw f.c]
  have hp : getPt points k = ⟨(getPt points k).x, (getPt points k).y,
      (getPt points k).z, 1⟩ := by
    rw [← hw k]
  unfold det_face_pt
  rw [ha, hb, hc, hp, det_4x4_homog]
  simp only [t_of, c0_of, vec3_of]

/-- After the simplex orientation pass, the excluded point's score
against its face is never positive (it cannot see the face), provided the
`sqrt` model maps nonnegatives to nonnegatives. -/
theorem orient_score_nonpos (sq : ℚ → ℚ)
    (hsq : ∀ x : ℚ, 0 ≤ x → 0 ≤ sq x) (points : List Vec4)
    (hw : ∀ i, (getPt points i).w = 1) (f : Face) (k : ℕ) :
    face_score (orient_init points (mk_row sq points f) k)
      (getPt points k) ≤ 0 := by
  have hs : 0 ≤ s_of sq points f := by
    apply hsq
    positivity
  have hscore := face_score_mk_row sq points f (getPt points k)
  have hdet := det_face_pt_eq_neg_t points hw f k
  unfold orient_init
  rw [show (mk_row sq points f).f = f from rfl]
  by_cases hlt : det_face_pt points f k < 0
  · rw [if_pos hlt, face_score_flip, hscore]
    have ht : 0 ≤ t_of points f (getPt points k) := by
      rw [hdet] at hlt
      linarith
    have := div_nonneg ht hs
    linarith
  · rw [if_neg hlt, hscore]
    have ht : t_of points f (getPt points k) ≤ 0 := by
      rw [hdet] at hlt
      push_neg at hlt
      linarith
    exact div_nonpos_iff.mpr (Or.inr ⟨ht, hs⟩)

/-!  Claim theorems. -/

/-- Claim C1 (code bug): the spec requires every input with `N < 4`
points to get the empty-hull result without running the pipeline, but
the code's guard is `nVert < 3`: a 3-point input is not given the empty
result (the pipeline runs, reading a nonexistent 4th point in C), while
a 2-point input is. -/
theorem C1_small_input_guard :
    convhull_3d_build sqId rnd0 [⟨0, 0, 0⟩, ⟨1, 0, 0⟩, ⟨0, 1, 0⟩] ≠
      some ⟨none, 0⟩ ∧
    convhull_3d_build sqId rnd0 [⟨0, 0, 0⟩, ⟨1, 0, 0⟩] =
      some ⟨none, 0⟩ := by
  constructor
  · decide
  · decide

/-- Claim C2, counterexample: with all input points coincident (spec
range `max - min = 0` on every axis) and `rand()` returning `RAND_MAX`,
the perturbed first coordinate moves by the full `CH_NOISE_VAL`, which is
nonzero - the perturbation is not bounded by any fixed fraction of the
observed value range and does not collapse to zero at zero spread. -/
theorem C2_counterexample :
    (getPt (mk_points rndFull coincident4) 0).x = CH_NOISE_VAL ∧
    CH_NOISE_VAL ≠ 0 ∧
    axis_range_spec coincident4 (·.x) = 0 := by
  refine ⟨by decide, by decide, by decide⟩

/-- Claim C2 (amended): the pseudorandom perturbation added to each
coordinate is bounded by the fixed constant `CH_NOISE_VAL` (independent
of the axis's observed value range), and is nonnegative; in particular
it need not vanish when all points coincide. -/
theorem C2_noise_bound (rnd : ℕ → ℚ) (i : ℕ) (v : Vec3)
    (h0 : ∀ k, 0 ≤ rnd k) (h1 : ∀ k, rnd k ≤ RAND_MAX) :
    (0 ≤ (perturb_vertex rnd i v).x - v.x ∧
      (perturb_vertex rnd i v).x - v.x ≤ CH_NOISE_VAL) ∧
    (0 ≤ (perturb_vertex rnd i v).y - v.y ∧
      (perturb_vertex rnd i v).y - v.y ≤ CH_NOISE_VAL) ∧
    (0 ≤ (perturb_vertex rnd i v).z - v.z ∧
      (perturb_vertex rnd i v).z - v.z ≤ CH_NOISE_VAL) := by
  have key : ∀ k, 0 ≤ noise rnd k ∧ noise rnd k ≤ CH_NOISE_VAL := by
    intro k
    unfold noise
    constructor
    · apply div_nonneg
      · exact mul_nonneg (by norm_num [CH_NOISE_VAL]) (h0 k)
      · norm_num [RAND_MAX]
    · rw [div_le_iff₀ (by norm_num [RAND_MAX] : (0 : ℚ) < RAND_MAX)]
      exact mul_le_mul_of_nonneg_left (h1 k)
        (by norm_num [CH_NOISE_VAL])
  have hx : (perturb_vertex rnd i v).x - v.x = noise rnd (3 * i) := by
    simp [perturb_vertex]
  have hy : (perturb_vertex rnd i v).y - v.y =
      noise rnd (3 * i + 1) := by
    simp [perturb_vertex]
  have hz : (perturb_vertex rnd i v).z - v.z =
      noise rnd (3 * i + 2) := by
    simp [perturb_vertex]
  refine ⟨⟨?_, ?_⟩, ⟨?_, ?_⟩, ⟨?_, ?_⟩⟩
  · rw [hx]; exact (key _).1
  · rw [hx]; exact (key _).2
  · rw [hy]; exact (key _).1
  · rw [hy]; exact (key _).2
  · rw [hz]; exact (key _).1
  · rw [hz]; exact (key _).2

theorem C2_noise_bound_witness :
    (0 ≤ (perturb_vertex rnd0 0 ⟨1, 2, 3⟩).x - (⟨1, 2, 3⟩ : Vec3).x ∧
      (perturb_vertex rnd0 0 ⟨1, 2, 3⟩).x - (⟨1, 2, 3⟩ : Vec3).x ≤
        CH_NOISE_VAL) ∧
    (0 ≤ (perturb_vertex rnd0 0 ⟨1, 2, 3⟩).y - (⟨1, 2, 3⟩ : Vec3).y ∧
      (perturb_vertex rnd0 0 ⟨1, 2, 3⟩).y - (⟨1, 2, 3⟩ : Vec3).y ≤
        CH_NOISE_VAL) ∧
    (0 ≤ (perturb_vertex rnd0 0 ⟨1, 2, 3⟩).z - (⟨1, 2, 3⟩ : Vec3).z ∧
      (perturb_vertex rnd0 0 ⟨1, 2, 3⟩).z - (⟨1, 2, 3⟩ : Vec3).z ≤
        CH_NOISE_VAL) :=
  C2_noise_bound rnd0 0 ⟨1, 2, 3⟩ (fun _ => le_refl 0)
    (fun _ => by norm_num [rnd0, RAND_MAX])

/-- Claim C3, counterexample: on the tetrahedron input, face 0 of the
initial simplex has a strictly positive orientation determinant and is
left unchanged by the orientation pass - a positive determinant does not
indicate misorientation and does not trigger the flip (the code flips on
a negative determinant). -/
theorem C3_counterexample :
    0 < det_face_pt (mk_points rnd0 tetra4) (simplex_face 0) 0 ∧
    (init_rows sqId (mk_points rnd0 tetra4)).getD 0
        ⟨⟨0, 0, 0⟩, ⟨0, 0, 0⟩, 0⟩ =
      mk_row sqId (mk_points rnd0 tetra4) (simplex_face 0) ∧
    (mk_row sqId (mk_points rnd0 tetra4) (simplex_face 0)).f =
      ⟨1, 2, 3⟩ := by
  refine ⟨by decide, by decide, by decide⟩

/-- Claim C3 (amended): in simplex initialization each of the 4 faces is
tested with the 4x4 homogeneous determinant against the excluded point; a
NEGATIVE determinant indicates the face is not correctly outward-oriented
and it is flipped by swapping two vertex indices and negating the plane
equation, and after this pass no vertex of the initial simplex has a
strictly positive plane score against its opposite face. -/
theorem C3_simplex_orientation (sq : ℚ → ℚ) (rnd : ℕ → ℚ)
    (verts : List Vec3) (hsq : ∀ x : ℚ, 0 ≤ x → 0 ≤ sq x) :
    init_rows sq (mk_points rnd verts) =
      [orient_init (mk_points rnd verts)
         (mk_row sq (mk_points rnd verts) (simplex_face 0)) 0,
       orient_init (mk_points rnd verts)
         (mk_row sq (mk_points rnd verts) (simplex_face 1)) 1,
       orient_init (mk_points rnd verts)
         (mk_row sq (mk_points rnd verts) (simplex_face 2)) 2,
       orient_init (mk_points rnd verts)
         (mk_row sq (mk_points rnd verts) (simplex_face 3)) 3] ∧
    ∀ (f : Face) (k : ℕ),
      (det_face_pt (mk_points rnd verts) f k < 0 →
        orient_init (mk_points rnd verts)
            (mk_row sq (mk_points rnd verts) f) k =
          flip_row (mk_row sq (mk_points rnd verts) f)) ∧
      (0 ≤ det_face_pt (mk_points rnd verts) f k →
        orient_init (mk_points rnd verts)
            (mk_row sq (mk_points rnd verts) f) k =
          mk_row sq (mk_points rnd verts) f) ∧
      face_score (orient_init (mk_points rnd verts)
          (mk_row sq (mk_points rnd verts) f) k)
        (getPt (mk_points rnd verts) k) ≤ 0 := by
  refine ⟨rfl, ?_⟩
  intro f k
  refine ⟨?_, ?_, ?_⟩
  · intro h
    unfold orient_init
    rw [show (mk_row sq (mk_points rnd verts) f).f = f from rfl,
      if_pos h]
  · intro h
    unfold orient_init
    rw [show (mk_row sq (mk_points rnd verts) f).f = f from rfl,
      if_neg (not_lt.mpr h)]
  · exact orient_score_nonpos sq hsq (mk_points rnd verts)
      (getPt_mk_points_w rnd verts) f k

theorem C3_simplex_orientation_witness :
    face_score (orient_init (mk_points rnd0 tetra4)
        (mk_row sqId (mk_points rnd0 tetra4) (simplex_face 0)) 0)
      (getPt (mk_points rnd0 tetra4) 0) ≤ 0 :=
  ((C3_simplex_orientation sqId rnd0 tetra4 (fun _ hx => hx)).2
    (simplex_face 0) 0).2.2

/-- Claim C7 (code bug): on 4 exactly coplanar points with zero
perturbation, every orientation determinant is zero, yet the construction
does not fail - it returns a successful 4-face "hull" (and for larger
coplanar inputs with a visible face the candidate search overruns), never
a DegenerateInputError. -/
theorem C7_coplanar_returns_mesh :
    convhull_3d_build sqId rnd0 coplanar4 =
      some ⟨some [⟨1, 2, 3⟩, ⟨0, 2, 3⟩, ⟨0, 1, 3⟩, ⟨0, 1, 2⟩], 4⟩ ∧
    det_face_pt (mk_points rnd0 coplanar4) (simplex_face 0) 0 = 0 ∧
    det_face_pt (mk_points rnd0 coplanar4) (simplex_face 1) 1 = 0 ∧
    det_face_pt (mk_points rnd0 coplanar4) (simplex_face 2) 2 = 0 ∧
    det_face_pt (mk_points rnd0 coplanar4) (simplex_face 3) 3 = 0 := by
  refine ⟨by decide, by decide, by decide, by decide, by decide⟩

/-- A state with one face whose plane no pending point can see (used as
a concrete instance below). -/
def st_w : St := ⟨[⟨⟨0, 1, 2⟩, ⟨0, 0, 1⟩, 0⟩], [5], 0, false, false⟩

/-- Claim C4: a face is classified visible exactly when
`dot(normal, point) + offset > 0`, and when no face is visible the
iteration pops the point and leaves the mesh (the `rows` field: face
index list, plane coefficients and face count together) entirely
unchanged; classification is a pure function of the mesh and the point. -/
theorem C4_visibility (sq : ℚ → ℚ) (points : List Vec4) (st : St)
    (i : ℕ) (rest : List ℕ) (hq : st.pleft = i :: rest)
    (hnv : ∀ r ∈ st.rows, face_score r (getPt points i) ≤ 0) :
    (∀ (r : FaceRow) (p : Vec4),
        visible_row r p = true ↔ 0 < face_score r p) ∧
    (iteration sq points st).rows = st.rows ∧
    (iteration sq points st).pleft = rest ∧
    (iteration sq points st).cnt = st.cnt + 1 ∧
    (iteration sq points st).fucked = st.fucked ∧
    (iteration sq points st).exhausted = st.exhausted := by
  have hfil :
      st.rows.filter (fun r => visible_row r (getPt points i)) = [] := by
    rw [List.filter_eq_nil_iff]
    intro r hr
    simp only [visible_row, decide_eq_true_eq]
    exact not_lt.mpr (hnv r hr)
  have hiter : iteration sq points st =
      { st with pleft := rest, cnt := st.cnt + 1 } := by
    unfold iteration
    rw [hq]
    simp only [hfil, List.length_nil]
    rfl
  rw [hiter]
  exact ⟨fun r p => by simp [visible_row], rfl, rfl, rfl, rfl, rfl⟩

theorem C4_visibility_witness :
    (∀ (r : FaceRow) (p : Vec4),
        visible_row r p = true ↔ 0 < face_score r p) ∧
    (iteration sqId [] st_w).rows = st_w.rows ∧
    (iteration sqId [] st_w).pleft = [] ∧
    (iteration sqId [] st_w).cnt = st_w.cnt + 1 ∧
    (iteration sqId [] st_w).fucked = st_w.fucked ∧
    (iteration sqId [] st_w).exhausted = st_w.exhausted :=
  C4_visibility sqId [] st_w 5 [] rfl (by decide)

/-- Claim C6: the retriangulation step raises the `fucked` flag exactly
when the face count exceeds `CH_MAX_NUM_FACES` while appending the new
faces, and once the flag is raised the main loop performs no further
iterations and the output is the empty result `(NULL, 0)` - no partial
mesh is returned. -/
theorem C6_face_limit :
    (∀ (sq : ℚ → ℚ) (points : List Vec4) (i : ℕ)
        (horizon : List (ℕ × ℕ)) (rows : List FaceRow),
        (add_new_faces sq points i horizon rows).2 = true ↔
          1 ≤ horizon.length ∧
          CH_MAX_NUM_FACES < rows.length + horizon.length) ∧
    (∀ (sq : ℚ → ℚ) (points : List Vec4) (fuel : ℕ) (st : St),
        st.fucked = true →
        runLoop sq points fuel st = st ∧
        (st.exhausted = false → build_output st = some ⟨none, 0⟩)) := by
  constructor
  · intro sq points i horizon
    induction horizon with
    | nil => intro rows; simp [add_new_faces]
    | cons e rest ih =>
      intro rows
      unfold add_new_faces
      by_cases h : CH_MAX_NUM_FACES <
          (rows ++ [mk_row sq points ⟨e.1, e.2, i⟩]).length
      · rw [if_pos h]
        dsimp only
        simp only [List.length_append, List.length_cons,
          List.length_nil] at h ⊢
        constructor
        · intro _
          omega
        · intro _
          trivial
      · rw [if_neg h]
        rw [ih]
        simp only [List.length_append, List.length_cons,
          List.length_nil] at h ⊢
        omega
  · intro sq points fuel st hf
    constructor
    · cases fuel with
      | zero => rfl
      | succ n =>
        unfold runLoop
        rw [hf]
        simp
    · intro hex
      simp [build_output, hex, hf]

/-- A state with the face-limit flag raised. -/
def st_f : St := ⟨[], [3], 2, true, false⟩

theorem C6_face_limit_witness :
    runLoop sqId [] 7 st_f = st_f ∧
    build_output st_f = some ⟨none, 0⟩ :=
  ⟨(C6_face_limit.2 sqId [] 7 st_f rfl).1,
   (C6_face_limit.2 sqId [] 7 st_f rfl).2 rfl⟩

/-- Claim C8: the pending queue is built once, before the main loop, by
sorting the (normalized squared distance, index) pairs in descending
value order - the resulting sequence is pairwise non-increasing in the
distance and each pair's value really is the normalized distance of the
point it indexes - and every loop iteration removes exactly the front
element of the queue and never re-sorts it. -/
theorem C8_queue (sq : ℚ → ℚ) (points : List Vec4) (rnd : ℕ → ℚ)
    (verts : List Vec3) :
    ((init_state sq rnd verts).pleft =
        (sorted_reldist_pairs rnd verts).map (fun pr => pr.2 + 4) ∧
      List.Pairwise (fun a b : ℚ × ℕ => b.1 ≤ a.1)
        (sorted_reldist_pairs rnd verts) ∧
      ∀ pr ∈ sorted_reldist_pairs rnd verts,
        pr.1 = reldist (mk_points rnd verts) (span_of verts)
          (meanp (mk_points rnd verts) verts.length) (pr.2 + 4)) ∧
    ∀ (st : St) (i : ℕ) (rest : List ℕ), st.pleft = i :: rest →
      (iteration sq points st).pleft = rest := by
  refine ⟨⟨rfl, ?_, ?_⟩, ?_⟩
  · haveI h1 : IsTotal (ℚ × ℕ) (fun a b => b.1 ≤ a.1) :=
      ⟨fun a b => le_total b.1 a.1⟩
    haveI h2 : IsTrans (ℚ × ℕ) (fun a b => b.1 ≤ a.1) :=
      ⟨fun a b c hab hbc => le_trans hbc hab⟩
    exact List.sorted_insertionSort _ _
  · intro pr hpr
    simp only [sorted_reldist_pairs, sort_pairs_desc,
      List.mem_insertionSort, reldist_pairs, List.mem_map,
      List.mem_range] at hpr
    obtain ⟨k, _, rfl⟩ := hpr
    rfl
  · intro st i rest h
    unfold iteration
    rw [h]
    dsimp only
    split
    · rfl
    · split
      · rfl
      · split <;> rfl

/-- A state used as a concrete queue instance. -/
def st_q : St := ⟨[], [7, 8], 0, false, false⟩

theorem C8_queue_witness :
    (iteration sqId [] st_q).pleft = [8] :=
  (C8_queue sqId [] rnd0 []).2 st_q 7 [8] rfl

/-- Claim C9 (amended): when a candidate reference point is coplanar with
the face (determinant exactly zero) the search silently advances to the
next candidate and, on success, returns the first candidate with nonzero
determinant, never an error; but the search is NOT guaranteed to stay
within the collected candidates: it fails exactly when every candidate is
coplanar, and a reachable input exists (see the counterexample) on which
this happens, i.e. the C code reads `pp[index]` past the `num_p`
collected candidates. -/
theorem C9_silent_skip :
    (∀ (points : List Vec4) (f : Face) (pp : List ℕ) (c : ℕ) (v : ℚ),
        find_ref points f pp = some (c, v) →
        v ≠ 0 ∧ v = det_face_pt points f c ∧
        ∃ pre post, pp = pre ++ c :: post ∧
          ∀ c' ∈ pre, det_face_pt points f c' = 0) ∧
    (∀ (points : List Vec4) (f : Face) (pp : List ℕ),
        find_ref points f pp = none ↔
        ∀ c ∈ pp, det_face_pt points f c = 0) := by
  constructor
  · intro points f pp
    induction pp with
    | nil =>
      intro c v h
      exact absurd h (by simp [find_ref])
    | cons c1 rest ih =>
      intro c v h
      simp only [find_ref] at h
      by_cases h0 : det_face_pt points f c1 = 0
      · rw [if_pos h0] at h
        obtain ⟨hne, hveq, pre, post, hsplit, hall⟩ := ih c v h
        refine ⟨hne, hveq, c1 :: pre, post, by rw [hsplit]; rfl, ?_⟩
        intro x hx
        rcases List.mem_cons.mp hx with rfl | hx'
        · exact h0
        · exact hall x hx'
      · rw [if_neg h0] at h
        simp only [Option.some.injEq, Prod.mk.injEq] at h
        obtain ⟨rfl, rfl⟩ := h
        exact ⟨h0, rfl, [], rest, rfl, fun x hx => absurd hx
          (List.not_mem_nil x)⟩
  · intro points f pp
    induction pp with
    | nil => simp [find_ref]
    | cons c1 rest ih =>
      simp only [find_ref]
      by_cases h0 : det_face_pt points f c1 = 0
      · rw [if_pos h0, ih]
        constructor
        · intro hall x hx
          rcases List.mem_cons.mp hx with rfl | hx'
          · exact h0
          · exact hall x hx'
        · intro hall x hx
          exact hall x (List.mem_cons_of_mem _ hx)
      · rw [if_neg h0]
        constructor
        · intro h
          exact absurd h (Option.some_ne_none _)
        · intro hall
          exact absurd (hall c1 (List.mem_cons_self c1 rest)) h0

theorem C9_silent_skip_witness :
    ((-1 : ℚ) ≠ 0 ∧
      (-1 : ℚ) = det_face_pt tetra_hom ⟨0, 1, 2⟩ 3 ∧
      ∃ pre post, ([3] : List ℕ) = pre ++ 3 :: post ∧
        ∀ c' ∈ pre, det_face_pt tetra_hom ⟨0, 1, 2⟩ c' = 0) ∧
    (find_ref tetra_hom ⟨0, 1, 2⟩ [] = none ↔
      ∀ c ∈ ([] : List ℕ), det_face_pt tetra_hom ⟨0, 1, 2⟩ c = 0) :=
  ⟨C9_silent_skip.1 tetra_hom ⟨0, 1, 2⟩ [3] 3 (-1) (by decide),
   C9_silent_skip.2 tetra_hom ⟨0, 1, 2⟩ []⟩

/-- Claim C9, counterexample: on `ptsC9` (with zero perturbation) the
orientation-fix search exhausts its candidate list - every collected
candidate is coplanar with the new face `(1,2,5)` - so the C code's
access `pp[index]` does NOT stay within the `num_p` collected candidates;
the model records this as the `exhausted` flag and assigns the run no
defined output. -/
theorem C9_counterexample :
    convhull_3d_build sqId rnd0 ptsC9 = none ∧
    (build_state sqId rnd0 ptsC9).exhausted = true := by
  refine ⟨by decide, by decide⟩

/-- Claim C10: when the orientation determinant found by the reference
search is already non-negative, the retriangulation orientation-fix
returns the face row unchanged (same vertex order, same plane equation),
and likewise the simplex-pass orientation fix. -/
theorem C10_orientation_idempotent (points : List Vec4) (nF : ℕ)
    (r : FaceRow) (c : ℕ) (v : ℚ) (k : ℕ)
    (h : find_ref points r.f (pp_of nF r.f) = some (c, v)) (hv : 0 ≤ v)
    (hk : 0 ≤ det_face_pt points r.f k) :
    fix_row points nF r = some r ∧ orient_init points r k = r := by
  constructor
  · unfold fix_row
    rw [h]
    dsimp only
    rw [if_neg (not_lt.mpr hv)]
  · unfold orient_init
    rw [if_neg (not_lt.mpr hk)]

theorem C10_orientation_idempotent_witness :
    fix_row tetra_hom 4 ⟨⟨1, 2, 3⟩, ⟨1, 1, 1⟩, -1⟩ =
      some ⟨⟨1, 2, 3⟩, ⟨1, 1, 1⟩, -1⟩ ∧
    orient_init tetra_hom ⟨⟨1, 2, 3⟩, ⟨1, 1, 1⟩, -1⟩ 0 =
      ⟨⟨1, 2, 3⟩, ⟨1, 1, 1⟩, -1⟩ :=
  C10_orientation_idempotent tetra_hom 4 ⟨⟨1, 2, 3⟩, ⟨1, 1, 1⟩, -1⟩ 0 1
    0 (by decide) (by decide) (by decide)

/-!  Claim C5: horizon characterisation. -/

theorem mem_sort_int (l : List ℕ) (x : ℕ) : x ∈ sort_int l ↔ x ∈ l := by
  simp [sort_int]

theorem shared_filter_eq (g v : Face) :
    (face_list g).filter (fun x => decide (x ∈ sort_int (face_list v))) =
    (face_list g).filter (fun x => decide (x ∈ face_list v)) := by
  apply List.filter_congr
  intro x _
  simp [mem_sort_int]

/-- `f0_sum` (the number of marked slots of a not-visible face) counts
the vertices shared with the visible face, as a set, when the
not-visible face has no repeated vertex. -/
theorem shared_count_card (g v : Face) (hg : (face_list g).Nodup) :
    shared_count g (sort_int (face_list v)) =
    ((face_list g).toFinset ∩ (face_list v).toFinset).card := by
  unfold shared_count
  rw [shared_filter_eq]
  rw [← List.toFinset_card_of_nodup (hg.filter _)]
  congr 1
  ext x
  simp [List.mem_filter]

/-- When exactly two slots are marked, the horizon edge consists exactly
of the two shared vertices. -/
theorem shared_pair_finset (g v : Face) (_hg : (face_list g).Nodup)
    (h2 : shared_count g (sort_int (face_list v)) = 2) :
    ({(shared_pair g (sort_int (face_list v))).1,
      (shared_pair g (sort_int (face_list v))).2} : Finset ℕ) =
    (face_list g).toFinset ∩ (face_list v).toFinset := by
  have hset : ((face_list g).filter
      (fun x => decide (x ∈ sort_int (face_list v)))).toFinset =
      (face_list g).toFinset ∩ (face_list v).toFinset := by
    rw [shared_filter_eq]
    ext z
    simp [List.mem_filter]
  unfold shared_count at h2
  obtain ⟨x, y, hxy⟩ := List.length_eq_two.mp h2
  unfold shared_pair
  rw [hxy]
  dsimp only
  rw [← hset, hxy]
  simp

theorem add_new_faces_no_limit (sq : ℚ → ℚ) (points : List Vec4)
    (i : ℕ) (horizon : List (ℕ × ℕ)) :
    ∀ rows : List FaceRow,
      rows.length + horizon.length ≤ CH_MAX_NUM_FACES →
      add_new_faces sq points i horizon rows =
        (rows ++ horizon.map (fun e => mk_row sq points ⟨e.1, e.2, i⟩),
          false) := by
  induction horizon with
  | nil =>
    intro rows _
    simp [add_new_faces]
  | cons e rest ih =>
    intro rows hlim
    unfold add_new_faces
    rw [if_neg (by
      simp only [List.length_append, List.length_cons, List.length_nil]
      simp only [List.length_cons] at hlim
      omega)]
    rw [ih _ (by
      simp only [List.length_append, List.length_cons, List.length_nil]
      simp only [List.length_cons] at hlim
      omega)]
    simp

/-- Claim C5: the horizon computed by the code is exactly the spec's: the
edges between a visible and a not-visible face sharing exactly 2 of their
3 vertices, each edge being the 2 shared vertex indices; and (below the
safety ceiling) one new face is created per horizon edge, made of the
edge's 2 vertices plus the newly inserted point `i`. -/
theorem C5_horizon (vis nonvis : List Face)
    (hnd : ∀ g ∈ nonvis, (face_list g).Nodup) :
    compute_horizon vis nonvis = spec_horizon vis nonvis ∧
    (∀ e ∈ compute_horizon vis nonvis, ∃ v ∈ vis, ∃ g ∈ nonvis,
        ((face_list g).toFinset ∩ (face_list v).toFinset).card = 2 ∧
        ({e.1, e.2} : Finset ℕ) =
          (face_list g).toFinset ∩ (face_list v).toFinset) ∧
    (∀ (sq : ℚ → ℚ) (points : List Vec4) (i : ℕ)
        (rows : List FaceRow),
        rows.length + (compute_horizon vis nonvis).length ≤
          CH_MAX_NUM_FACES →
        add_new_faces sq points i (compute_horizon vis nonvis) rows =
          (rows ++ (compute_horizon vis nonvis).map
            (fun e => mk_row sq points ⟨e.1, e.2, i⟩), false)) := by
  have hfiltereq : ∀ v : Face, ∀ l : List Face,
      (∀ g ∈ l, (face_list g).Nodup) →
      (l.filter fun g =>
        decide (shared_count g (sort_int (face_list v)) = 2)) =
      (l.filter fun g => decide (spec_shares_two g v)) := by
    intro v l hl
    apply List.filter_congr
    intro g hgmem
    simp only [decide_eq_decide]
    rw [shared_count_card g v (hl g hgmem)]
    exact Iff.rfl
  refine ⟨?_, ?_, ?_⟩
  · unfold compute_horizon spec_horizon
    have := fun v => hfiltereq v nonvis hnd
    simp only [this]
  · intro e he
    unfold compute_horizon at he
    simp only [List.mem_flatMap, List.mem_map, List.mem_filter] at he
    obtain ⟨v, hv, g, ⟨hgmem, hgcond⟩, rfl⟩ := he
    have h2 : shared_count g (sort_int (face_list v)) = 2 := by
      simpa using hgcond
    refine ⟨v, hv, g, hgmem, ?_, ?_⟩
    · rw [← shared_count_card g v (hnd g hgmem)]
      exact h2
    · exact shared_pair_finset g v (hnd g hgmem) h2
  · intro sq points i rows hlim
    exact add_new_faces_no_limit sq points i _ rows hlim

theorem C5_horizon_witness :
    compute_horizon [⟨1, 2, 3⟩] [⟨0, 1, 2⟩] =
      spec_horizon [⟨1, 2, 3⟩] [⟨0, 1, 2⟩] ∧
    add_new_faces sqId tetra_hom 4
        (compute_horizon [⟨1, 2, 3⟩] [⟨0, 1, 2⟩]) [] =
      ([] ++ (compute_horizon [⟨1, 2, 3⟩] [⟨0, 1, 2⟩]).map
        (fun e => mk_row sqId tetra_hom ⟨e.1, e.2, 4⟩), false) :=
  ⟨(C5_horizon [⟨1, 2, 3⟩] [⟨0, 1, 2⟩] (by decide)).1,
   (C5_horizon [⟨1, 2, 3⟩] [⟨0, 1, 2⟩] (by decide)).2.2 sqId tetra_hom
     4 [] (by decide)⟩

end Convhull
